import Mathlib

/-!
Verification of the banking-rs core: the `Cents` fixed-point currency parser and
formatter (`src/account.rs`) and the `BankingSystem` ledger operations
(`src/banking_system.rs`), shallowly embedded as executable Lean definitions.
Amount strings are modelled as `List Char`; `u64` values as `Nat` together with
explicit bounds against `U64MAX`; in-place mutation of the account vector as
explicit state passing, where each operation returns an optional error together
with the post-call state of the account list.
-/

namespace Banking

/-- Maximum value of a 64-bit unsigned integer (`u64::MAX`). -/
def U64MAX : Nat := 18446744073709551615

/-- The error types of the source (`BankingSystemError` in `banking_system.rs`
and `AccountError` in `account.rs`), merged into one inductive. The two
`expect` panic sites in `BankingSystem::transfer` (lines 98-101) are
represented by the two dedicated `Panic` constructors. -/
inductive BankingError where
  | DuplicateAccountName (name : String)
  | AccountNotFound (name : String)
  | InvalidAmount (s : List Char)
  | AmountOverflow (s : List Char)
  | AccountOverdraft (name : String) (balance : Nat) (withdrawAmount : Nat)
  | BalanceOverflow (name : String) (depositAmount : Nat)
  | EmptyAccountName
  | PanicFromNotFound
  | PanicWithdrawFailed
deriving DecidableEq, Repr

instance {ε α : Type} [DecidableEq ε] [DecidableEq α] : DecidableEq (Except ε α) :=
  fun a b =>
    match a, b with
    | .ok x, .ok y =>
      if h : x = y then .isTrue (by rw [h]) else .isFalse (fun hh => h (by injection hh))
    | .error x, .error y =>
      if h : x = y then .isTrue (by rw [h]) else .isFalse (fun hh => h (by injection hh))
    | .ok _, .error _ => .isFalse (fun hh => by cases hh)
    | .error _, .ok _ => .isFalse (fun hh => by cases hh)

/-- Value of a big-endian list of decimal digit characters
(`acc * 10 + digit` per step, as in Rust's `u64::from_str`). -/
def digitsToNat (l : List Char) : Nat :=
  l.foldl (fun acc c => acc * 10 + (c.toNat - 48)) 0

/-- Rust's integer parser accepts one optional leading `+` sign
(`core::num::from_str_radix` consumes a leading `+` or `-`; `-` on an
unsigned type then fails at the digit stage because `-` is not a digit). -/
def stripPlus (l : List Char) : List Char :=
  match l with
  | c :: rest => if c = '+' then rest else c :: rest
  | [] => []

/-- `u64::from_str`: optional leading `+`, then one or more ASCII digits whose
value fits in `u64`; `none` models every `ParseIntError` (empty input, invalid
digit, and positive overflow alike, since the caller in `Cents::from_str`
collapses all of them with `map_err`). -/
def parseU64 (l : List Char) : Option Nat :=
  let t := stripPlus l
  if t ≠ [] ∧ t.all Char.isDigit then
    if digitsToNat t ≤ U64MAX then some (digitsToNat t) else none
  else none

/-- `str::rsplit_once('.')`: split at the last occurrence of `'.'`
(intended to be applied only when a `'.'` is present). -/
def rsplitOnceDot (s : List Char) : List Char × List Char :=
  (((s.reverse.dropWhile (fun c => !(c == '.'))).tail).reverse,
    (s.reverse.takeWhile (fun c => !(c == '.'))).reverse)

/-- `Cents::from_str` (account.rs lines 40-83). The `decimal_part * 10`
step for a one-digit decimal part is an unchecked `u64` multiplication in the
source; it cannot overflow there because a one-character string parses to at
most 9, so plain `Nat` multiplication is faithful. -/
def cents_from_str (s : List Char) : Except BankingError Nat :=
  if '.' ∉ s then
    match parseU64 s with
    | none => .error (.InvalidAmount s)
    | some n =>
      if n * 100 ≤ U64MAX then .ok (n * 100) else .error (.AmountOverflow s)
  else
    let ipdp := rsplitOnceDot s
    let intRes : Except BankingError Nat :=
      if ipdp.1.length < 1 then .ok 0
      else
        match parseU64 ipdp.1 with
        | none => .error (.InvalidAmount s)
        | some n => .ok n
    match intRes with
    | .error e => .error e
    | .ok integerPart =>
      if ipdp.2.length < 1 ∨ 2 < ipdp.2.length then .error (.InvalidAmount s)
      else
        match parseU64 ipdp.2 with
        | none => .error (.InvalidAmount s)
        | some d =>
          let decimalPart := if ipdp.2.length = 1 then d * 10 else d
          if integerPart * 100 ≤ U64MAX then
            if integerPart * 100 + decimalPart ≤ U64MAX then
              .ok (integerPart * 100 + decimalPart)
            else .error (.AmountOverflow s)
          else .error (.AmountOverflow s)

/-- An account: a name and a balance in minor units (`Cents`). -/
structure Account where
  name : String
  balance : Nat
deriving DecidableEq, Repr

/-- `Account::new` (account.rs lines 99-104): rejects a zero-length name. -/
def Account.new (name : String) (balance : Nat) : Except BankingError Account :=
  if name.length < 1 then .error .EmptyAccountName
  else .ok { name := name, balance := balance }

/-- `Account::deposit` (account.rs lines 106-116): `checked_add` on the
balance; on overflow the balance assignment does not happen, so the account is
returned unchanged alongside the error. -/
def Account.deposit (a : Account) (amount : Nat) : Option BankingError × Account :=
  if a.balance + amount ≤ U64MAX then
    (none, { a with balance := a.balance + amount })
  else (some (.BalanceOverflow a.name amount), a)

/-- `Account::withdraw` (account.rs lines 118-129): `checked_sub`; fails
exactly when the amount exceeds the balance, leaving the account unchanged. -/
def Account.withdraw (a : Account) (amount : Nat) : Option BankingError × Account :=
  if amount ≤ a.balance then
    (none, { a with balance := a.balance - amount })
  else (some (.AccountOverdraft a.name a.balance amount), a)

/-- `BankingSystem::account_exists` (banking_system.rs lines 31-33). -/
def accountExists (sys : List Account) (n : String) : Bool :=
  sys.any (fun a => a.name = n)

/-- The read-only face of `BankingSystem::get_account_mut` (lines 35-40):
first account whose name matches. -/
def findAccount : List Account → String → Option Account
  | [], _ => none
  | a :: rest, n => if a.name = n then some a else findAccount rest n

/-- `get_account_mut` followed by an account-level mutation `f`: the first
account whose name matches is replaced by `f`'s output, and `f`'s error (or
`AccountNotFound` when no account matches) is propagated. -/
def mutFirst (f : Account → Option BankingError × Account) :
    List Account → String → Option BankingError × List Account
  | [], n => (some (.AccountNotFound n), [])
  | a :: rest, n =>
    if a.name = n then ((f a).1, (f a).2 :: rest)
    else ((mutFirst f rest n).1, a :: (mutFirst f rest n).2)

/-- `BankingSystem::create` (banking_system.rs lines 42-58): duplicate check,
then amount parse, then `Account::new` (which performs the empty-name check),
then push to the end of the vector. -/
def create (sys : List Account) (n : String) (amt : List Char) :
    Option BankingError × List Account :=
  if accountExists sys n then (some (.DuplicateAccountName n), sys)
  else
    match cents_from_str amt with
    | .error e => (some e, sys)
    | .ok m =>
      match Account.new n m with
      | .error e => (some e, sys)
      | .ok a => (none, sys ++ [a])

/-- `BankingSystem::deposit` (lines 60-70): account lookup, then amount
parse, then `Account::deposit` in place. -/
def deposit (sys : List Account) (n : String) (amt : List Char) :
    Option BankingError × List Account :=
  match findAccount sys n with
  | none => (some (.AccountNotFound n), sys)
  | some _ =>
    match cents_from_str amt with
    | .error e => (some e, sys)
    | .ok m => mutFirst (fun a => Account.deposit a m) sys n

/-- `BankingSystem::withdraw` (lines 72-82). -/
def withdraw (sys : List Account) (n : String) (amt : List Char) :
    Option BankingError × List Account :=
  match findAccount sys n with
  | none => (some (.AccountNotFound n), sys)
  | some _ =>
    match cents_from_str amt with
    | .error e => (some e, sys)
    | .ok m => mutFirst (fun a => Account.withdraw a m) sys n

/-- `BankingSystem::transfer` (banking_system.rs lines 84-106): look up `from`
in a clone, look up `to` in the real system, parse the amount, trial-withdraw
on the cloned `from` account (discarding the clone's state), deposit for real
into `to`, and finally re-look-up `from` and withdraw for real; the two
`expect` calls of the final step are the `Panic` results. -/
def transfer (sys : List Account) (fromN toN : String) (amt : List Char) :
    Option BankingError × List Account :=
  match findAccount sys fromN with
  | none => (some (.AccountNotFound fromN), sys)
  | some clonedFrom =>
    match findAccount sys toN with
    | none => (some (.AccountNotFound toN), sys)
    | some _ =>
      match cents_from_str amt with
      | .error e => (some e, sys)
      | .ok m =>
        match (Account.withdraw clonedFrom m).1 with
        | some e => (some e, sys)
        | none =>
          let dres := mutFirst (fun a => Account.deposit a m) sys toN
          match dres.1 with
          | some e => (some e, dres.2)
          | none =>
            let wres := mutFirst (fun a => Account.withdraw a m) dres.2 fromN
            match wres.1 with
            | some (.AccountNotFound _) => (some .PanicFromNotFound, dres.2)
            | some _ => (some .PanicWithdrawFailed, dres.2)
            | none => (none, wres.2)

/-! Specification-side definitions, written from the spec's words, to be
compared with the source-derived functions above. -/

/-- The spec's decimal grammar (spec §4.1 Parse): optional integer-part
digits, then either nothing or a single `.` followed by 1-2 decimal digits;
at least one digit overall; no sign and no other characters. For strings with
at most one separator this split at the last `.` coincides with the grammar's
split, and strings with two or more separators are rejected either way
because the integer side then retains a `.` and is not all digits. -/
def specGrammarOK (s : List Char) : Bool :=
  if '.' ∈ s then
    (rsplitOnceDot s).1.all Char.isDigit &&
      decide (1 ≤ (rsplitOnceDot s).2.length) &&
      decide ((rsplitOnceDot s).2.length ≤ 2) &&
      (rsplitOnceDot s).2.all Char.isDigit
  else !s.isEmpty && s.all Char.isDigit

/-- The spec's combined value (spec §4.1): `integer_part * 100 + decimal_part`
with an omitted integer part counting as zero and a one-digit decimal part
scaled by ten. -/
def specValue (s : List Char) : Nat :=
  if '.' ∈ s then
    digitsToNat (rsplitOnceDot s).1 * 100 +
      (if (rsplitOnceDot s).2.length = 1 then digitsToNat (rsplitOnceDot s).2 * 10
       else digitsToNat (rsplitOnceDot s).2)
  else digitsToNat s * 100

/-- A digit run as actually accepted by the implementation: an optional
leading `+`, then one or more digits, whose value fits in `u64`. -/
def runIsU64 (l : List Char) : Bool :=
  !(stripPlus l).isEmpty && (stripPlus l).all Char.isDigit &&
    decide (digitsToNat (stripPlus l) ≤ U64MAX)

/-- Value of a digit run after discarding the optional leading `+`. -/
def runVal (l : List Char) : Nat := digitsToNat (stripPlus l)

/-- The implementation's effective grammar: the spec grammar extended with an
optional leading `+` on each digit run, and requiring the integer-side run
(or the whole separator-free string) to fit in `u64` on its own. -/
def implGrammarOK (s : List Char) : Bool :=
  if '.' ∈ s then
    ((rsplitOnceDot s).1.isEmpty || runIsU64 (rsplitOnceDot s).1) &&
      decide (1 ≤ (rsplitOnceDot s).2.length) &&
      decide ((rsplitOnceDot s).2.length ≤ 2) &&
      runIsU64 (rsplitOnceDot s).2
  else runIsU64 s

/-- The minor-unit value denoted by a string of the implementation grammar. -/
def implValue (s : List Char) : Nat :=
  if '.' ∈ s then
    (if (rsplitOnceDot s).1.isEmpty then 0 else runVal (rsplitOnceDot s).1) * 100 +
      (if (rsplitOnceDot s).2.length = 1 then runVal (rsplitOnceDot s).2 * 10
       else runVal (rsplitOnceDot s).2)
  else runVal s * 100

/-- Canonical decimal rendering of a natural number, most significant digit
first, as Rust's `Display` for `u64` produces; the first argument is
structural-recursion fuel (the number itself suffices). -/
def natToCharsAux : Nat → Nat → List Char
  | 0, _ => []
  | fuel + 1, n =>
    if n = 0 then [] else natToCharsAux fuel (n / 10) ++ [Nat.digitChar (n % 10)]

/-- Decimal rendering of a natural number (`"0"` for zero). -/
def natToChars (n : Nat) : List Char :=
  if n = 0 then ['0'] else natToCharsAux n n

/-- Rust's `{:02}` format: zero-pad to width two. -/
def pad2 (n : Nat) : List Char :=
  if n < 10 then '0' :: natToChars n else natToChars n

/-- `Display for Cents` (account.rs lines 29-33): `$`, then
`self.0 / 100`, `.`, and `self.0 % 100` zero-padded to two digits. -/
def formatCents (v : Nat) : List Char :=
  '$' :: (natToChars (v / 100) ++ '.' :: pad2 (v % 100))

/-- The numeric part of `Display for Cents`, without the `$` display prefix
(the spec's `Format(value)`: `integer.` plus two zero-padded digits). -/
def formatCentsNumeric (v : Nat) : List Char :=
  natToChars (v / 100) ++ '.' :: pad2 (v % 100)

/-- The ledger's structural invariant: account names are pairwise distinct
and non-empty. -/
def goodLedger (sys : List Account) : Prop :=
  (sys.map Account.name).Nodup ∧ ∀ a ∈ sys, a.name ≠ ""

/-! Lemmas about the parser. -/

theorem parseU64_eq (l : List Char) :
    parseU64 l = if runIsU64 l then some (runVal l) else none := by
  unfold parseU64 runIsU64 runVal
  by_cases h1 : stripPlus l = []
  · simp [h1]
  · by_cases h2 : (stripPlus l).all Char.isDigit
    · by_cases h3 : digitsToNat (stripPlus l) ≤ U64MAX
      · simp [h1, h2, h3]
      · simp [h1, h2, h3]
    · simp [h1, h2]

/-- `Cents::from_str` computes exactly the classification by the
implementation grammar: a value for in-grammar, in-range strings;
`AmountOverflow` for in-grammar, out-of-range strings; `InvalidAmount`
otherwise. -/
theorem from_str_spec (s : List Char) :
    cents_from_str s =
      if implGrammarOK s then
        if implValue s ≤ U64MAX then .ok (implValue s)
        else .error (.AmountOverflow s)
      else .error (.InvalidAmount s) := by
  unfold cents_from_str implGrammarOK implValue
  by_cases hdot : '.' ∈ s
  · have hipe : (rsplitOnceDot s).1.isEmpty = decide ((rsplitOnceDot s).1.length < 1) := by
      rcases h : (rsplitOnceDot s).1 with _ | ⟨c, t⟩ <;> simp
    by_cases hip : (rsplitOnceDot s).1.length < 1 <;>
      by_cases hri : runIsU64 (rsplitOnceDot s).1 <;>
      by_cases h1 : 1 ≤ (rsplitOnceDot s).2.length <;>
      by_cases h2 : (rsplitOnceDot s).2.length ≤ 2 <;>
      by_cases hrd : runIsU64 (rsplitOnceDot s).2 <;>
      by_cases hl1 : (rsplitOnceDot s).2.length = 1
    all_goals try simp only [hdot, hipe, hip, hri, h1, h2, hrd, hl1, parseU64_eq, not_true,
      decide_True, decide_False, if_true, if_false, Bool.true_or, Bool.false_or,
      Bool.true_and, Bool.false_and, Bool.and_true, Bool.and_false, ite_true,
      ite_false, not_false_iff, Bool.or_true, Bool.or_false]
    all_goals try simp [h1, h2, hl1]
    all_goals try omega
    all_goals try (split_ifs <;> try simp_all <;> try omega)
    all_goals try simp_all [runIsU64, runVal]
    all_goals rcases h9 : (rsplitOnceDot s).2 with _ | ⟨c9, t9⟩ <;> simp_all <;> try omega
  · by_cases hns : runIsU64 s
    all_goals try simp only [hdot, hns, parseU64_eq, not_false_iff, if_true, if_false,
      ite_true, ite_false]
    all_goals try simp [hns]

theorem takeWhile_middle (p : Char → Bool) (A : List Char) (b : Char) (B : List Char)
    (hA : ∀ c ∈ A, p c = true) (hb : p b = false) :
    (A ++ b :: B).takeWhile p = A ∧ (A ++ b :: B).dropWhile p = b :: B := by
  induction A with
  | nil => simp [List.takeWhile_cons, List.dropWhile_cons, hb]
  | cons c t ih =>
    have hc : p c = true := hA c (by simp)
    have ht : ∀ x ∈ t, p x = true := fun x hx => hA x (by simp [hx])
    obtain ⟨ih1, ih2⟩ := ih ht
    simp [List.takeWhile_cons, List.dropWhile_cons, hc, ih1, ih2]

/-- `rsplit_once('.')` on a string whose last separator is explicit. -/
theorem rsplitOnceDot_spec (ip dp : List Char) (hdp : '.' ∉ dp) :
    rsplitOnceDot (ip ++ '.' :: dp) = (ip, dp) := by
  unfold rsplitOnceDot
  have hrev : (ip ++ '.' :: dp).reverse = dp.reverse ++ '.' :: ip.reverse := by
    simp [List.reverse_append]
  have hA : ∀ c ∈ dp.reverse, (!(c == '.')) = true := by
    intro c hc
    simp only [List.mem_reverse] at hc
    simp only [Bool.not_eq_true', beq_eq_false_iff_ne]
    intro h
    exact hdp (h ▸ hc)
  have hb : (!(('.') == '.')) = false := by simp
  obtain ⟨h1, h2⟩ := takeWhile_middle _ dp.reverse '.' ip.reverse hA hb
  rw [hrev, h1, h2]
  simp

theorem digitsToNat_append_digit (A : List Char) (c : Char) :
    digitsToNat (A ++ [c]) = digitsToNat A * 10 + (c.toNat - 48) := by
  unfold digitsToNat
  rw [List.foldl_append]
  rfl

theorem digitChar_spec : ∀ d, d < 10 →
    (Nat.digitChar d).toNat - 48 = d ∧ (Nat.digitChar d).isDigit = true := by decide

theorem isDigit_ne (c : Char) (h : c.isDigit = true) : c ≠ '.' ∧ c ≠ '+' ∧ c ≠ '$' := by
  refine ⟨?_, ?_, ?_⟩ <;> intro e <;> rw [e] at h <;> exact absurd h (by decide)

theorem natToCharsAux_zero (fuel : Nat) : natToCharsAux fuel 0 = [] := by
  cases fuel <;> simp [natToCharsAux]

theorem natToCharsAux_unfold (fuel n : Nat) (h1 : 0 < n) (h2 : n ≤ fuel) :
    natToCharsAux fuel n = natToCharsAux (fuel - 1) (n / 10) ++ [Nat.digitChar (n % 10)] := by
  cases fuel with
  | zero => omega
  | succ f => simp [natToCharsAux, show ¬ n = 0 from by omega]

theorem natToCharsAux_spec (fuel : Nat) : ∀ n, 0 < n → n ≤ fuel →
    (∀ c ∈ natToCharsAux fuel n, c.isDigit = true) ∧ natToCharsAux fuel n ≠ [] ∧
      digitsToNat (natToCharsAux fuel n) = n := by
  induction fuel with
  | zero => intro n h1 h2; omega
  | succ f ih =>
    intro n h1 h2
    rw [natToCharsAux_unfold (f + 1) n h1 h2]
    have hm : n % 10 < 10 := Nat.mod_lt _ (by omega)
    obtain ⟨e1, e2⟩ := digitChar_spec _ hm
    by_cases hq : n / 10 = 0
    · rw [hq, natToCharsAux_zero]
      refine ⟨?_, by simp, ?_⟩
      · intro c hc
        simp only [List.nil_append, List.mem_singleton] at hc
        rw [hc]
        exact e2
      · rw [List.nil_append]
        have hv : digitsToNat [Nat.digitChar (n % 10)] =
            (Nat.digitChar (n % 10)).toNat - 48 := by
          simp [digitsToNat]
        rw [hv, e1]
        omega
    · have h10 : n / 10 ≤ f := by
        have := Nat.div_lt_self h1 (by norm_num : 1 < 10)
        omega
      obtain ⟨ih1, ih2, ih3⟩ := ih (n / 10) (Nat.pos_of_ne_zero hq) h10
      refine ⟨?_, by simp, ?_⟩
      · intro c hc
        simp only [Nat.add_sub_cancel, List.mem_append, List.mem_singleton] at hc
        rcases hc with hc | hc
        · exact ih1 c hc
        · rw [hc]; exact e2
      · rw [show f + 1 - 1 = f from rfl, digitsToNat_append_digit, ih3, e1]
        omega

theorem natToChars_spec (n : Nat) :
    (∀ c ∈ natToChars n, c.isDigit = true) ∧ natToChars n ≠ [] ∧
      digitsToNat (natToChars n) = n := by
  unfold natToChars
  by_cases h : n = 0
  · subst h
    refine ⟨?_, by simp, by simp [digitsToNat]⟩
    intro c hc
    simp only [if_true, List.mem_singleton, if_pos] at hc
    simp [hc]
  · rw [if_neg h]
    exact natToCharsAux_spec n n (Nat.pos_of_ne_zero h) le_rfl

theorem natToChars_single (r : Nat) (h : r < 10) : natToChars r = [Nat.digitChar r] := by
  interval_cases r <;> rfl

theorem natToChars_two (r : Nat) (h1 : 10 ≤ r) (h2 : r < 100) :
    natToChars r = [Nat.digitChar (r / 10), Nat.digitChar (r % 10)] := by
  have e0 : natToChars r = natToCharsAux r r := by
    unfold natToChars
    rw [if_neg (by omega)]
  rw [e0, natToCharsAux_unfold r r (by omega) le_rfl,
    natToCharsAux_unfold (r - 1) (r / 10) (by omega) (by omega)]
  have hq : r / 10 / 10 = 0 := by omega
  have hm : r / 10 % 10 = r / 10 := by omega
  rw [hq, hm, natToCharsAux_zero]
  simp

theorem pad2_spec (r : Nat) (h : r < 100) :
    (∀ c ∈ pad2 r, c.isDigit = true) ∧ (pad2 r).length = 2 ∧
      digitsToNat (pad2 r) = r := by
  unfold pad2
  by_cases h10 : r < 10
  · rw [if_pos h10, natToChars_single r h10]
    obtain ⟨e1, e2⟩ := digitChar_spec r h10
    refine ⟨?_, by simp, ?_⟩
    · intro c hc
      simp only [List.mem_cons, List.not_mem_nil, or_false] at hc
      rcases hc with hc | hc <;> rw [hc]
      · decide
      · exact e2
    · simp [digitsToNat, e1]
  · rw [if_neg h10, natToChars_two r (by omega) h]
    obtain ⟨e1, e2⟩ := digitChar_spec (r / 10) (by omega)
    obtain ⟨f1, f2⟩ := digitChar_spec (r % 10) (by omega)
    refine ⟨?_, by simp, ?_⟩
    · intro c hc
      simp only [List.mem_cons, List.not_mem_nil, or_false] at hc
      rcases hc with hc | hc <;> rw [hc]
      · exact e2
      · exact f2
    · simp [digitsToNat, e1, f1]
      omega

theorem stripPlus_of_digits (l : List Char) (h : ∀ c ∈ l, c.isDigit = true) :
    stripPlus l = l := by
  cases l with
  | nil => rfl
  | cons c t =>
    have hc := h c (by simp)
    have hne : ¬ c = '+' := (isDigit_ne c hc).2.1
    simp [stripPlus, hne]

theorem isEmpty_false_of_ne (l : List Char) (h : l ≠ []) : l.isEmpty = false := by
  cases l with
  | nil => exact absurd rfl h
  | cons a t => rfl

/-- Parsing the numeric rendering (no `$` prefix) recovers the value. -/
theorem formatNumeric_parses (v : Nat) (hv : v ≤ U64MAX) :
    cents_from_str (formatCentsNumeric v) = .ok v := by
  show cents_from_str (natToChars (v / 100) ++ '.' :: pad2 (v % 100)) = .ok v
  obtain ⟨ipd, ipne, ipval⟩ := natToChars_spec (v / 100)
  obtain ⟨dpd, dplen, dpval⟩ := pad2_spec (v % 100) (Nat.mod_lt _ (by norm_num))
  have hdp_nodot : '.' ∉ pad2 (v % 100) := fun hc => absurd (dpd _ hc) (by decide)
  have hsplit := rsplitOnceDot_spec (natToChars (v / 100)) (pad2 (v % 100)) hdp_nodot
  have hdot : '.' ∈ natToChars (v / 100) ++ '.' :: pad2 (v % 100) := by simp
  have hip_all : (natToChars (v / 100)).all Char.isDigit = true := by
    rw [List.all_eq_true]; exact ipd
  have hdp_all : (pad2 (v % 100)).all Char.isDigit = true := by
    rw [List.all_eq_true]; exact dpd
  have hipmax : digitsToNat (natToChars (v / 100)) ≤ U64MAX := by
    rw [ipval]; unfold U64MAX at hv ⊢; omega
  have hdpmax : digitsToNat (pad2 (v % 100)) ≤ U64MAX := by
    rw [dpval]
    have := Nat.mod_lt v (show 0 < 100 by norm_num)
    unfold U64MAX
    omega
  have hri : runIsU64 (natToChars (v / 100)) = true := by
    unfold runIsU64
    rw [stripPlus_of_digits _ ipd, isEmpty_false_of_ne _ ipne]
    simp [hip_all, hipmax]
  have hdpne : pad2 (v % 100) ≠ [] := by
    intro h
    rw [h] at dplen
    simp at dplen
  have hrd : runIsU64 (pad2 (v % 100)) = true := by
    unfold runIsU64
    rw [stripPlus_of_digits _ dpd, isEmpty_false_of_ne _ hdpne]
    simp [hdp_all, hdpmax]
  rw [from_str_spec]
  have hgram : implGrammarOK (natToChars (v / 100) ++ '.' :: pad2 (v % 100)) = true := by
    unfold implGrammarOK
    rw [if_pos hdot, hsplit]
    simp [hri, hrd, dplen]
  have hval : implValue (natToChars (v / 100) ++ '.' :: pad2 (v % 100)) = v := by
    unfold implValue
    rw [if_pos hdot, hsplit]
    unfold runVal
    rw [stripPlus_of_digits _ ipd, stripPlus_of_digits _ dpd, ipval, dpval,
      isEmpty_false_of_ne _ ipne, dplen]
    have harith : v / 100 * 100 + v % 100 = v := by omega
    simp [harith]
  rw [hgram, hval, if_pos rfl, if_pos hv]

/-- Parsing the full `Display` output (with the `$` prefix) always fails. -/
theorem formatCents_invalid (v : Nat) :
    cents_from_str (formatCents v) = .error (.InvalidAmount (formatCents v)) := by
  obtain ⟨ipd, ipne, ipval⟩ := natToChars_spec (v / 100)
  obtain ⟨dpd, dplen, dpval⟩ := pad2_spec (v % 100) (Nat.mod_lt _ (by norm_num))
  have hdp_nodot : '.' ∉ pad2 (v % 100) := fun hc => absurd (dpd _ hc) (by decide)
  have hassoc : formatCents v = ('$' :: natToChars (v / 100)) ++ '.' :: pad2 (v % 100) := rfl
  have hsplit := rsplitOnceDot_spec ('$' :: natToChars (v / 100)) (pad2 (v % 100)) hdp_nodot
  have hdot : '.' ∈ ('$' :: natToChars (v / 100)) ++ '.' :: pad2 (v % 100) := by simp
  have hri : runIsU64 ('$' :: natToChars (v / 100)) = false := by
    unfold runIsU64
    have hs : stripPlus ('$' :: natToChars (v / 100)) = '$' :: natToChars (v / 100) := by
      simp [stripPlus]
    have hdollar : ('$').isDigit = false := by decide
    rw [hs]
    simp [List.all_cons, hdollar]
  rw [hassoc, from_str_spec]
  have hgram : implGrammarOK (('$' :: natToChars (v / 100)) ++ '.' :: pad2 (v % 100)) = false := by
    unfold implGrammarOK
    rw [if_pos hdot, hsplit]
    simp [hri]
  rw [hgram]
  simp

/-- Every string of the spec grammar whose value is representable is also in
the implementation grammar, with the same value. -/
theorem spec_grammar_impl (s : List Char) (hg : specGrammarOK s = true)
    (hv : specValue s ≤ U64MAX) :
    implGrammarOK s = true ∧ implValue s = specValue s := by
  unfold specGrammarOK at hg
  unfold specValue at hv ⊢
  unfold implGrammarOK implValue
  by_cases hdot : '.' ∈ s
  · simp only [hdot, if_true] at hg hv ⊢
    refine ⟨?_, ?_⟩ <;>
      simp only [Bool.and_eq_true, decide_eq_true_eq] at hg
    · obtain ⟨⟨⟨hipall, hlen1⟩, hlen2⟩, hdpall⟩ := hg
      have hipd : ∀ c ∈ (rsplitOnceDot s).1, c.isDigit = true := List.all_eq_true.mp hipall
      have hdpd : ∀ c ∈ (rsplitOnceDot s).2, c.isDigit = true := List.all_eq_true.mp hdpall
      have hdpne : (rsplitOnceDot s).2 ≠ [] := by
        intro h
        rw [h] at hlen1
        simp at hlen1
      have hdpmax : digitsToNat (rsplitOnceDot s).2 ≤ U64MAX := by
        by_cases hl : (rsplitOnceDot s).2.length = 1
        · rw [if_pos hl] at hv
          omega
        · rw [if_neg hl] at hv
          omega
      have hrd : runIsU64 (rsplitOnceDot s).2 = true := by
        unfold runIsU64
        rw [stripPlus_of_digits _ hdpd, isEmpty_false_of_ne _ hdpne]
        simp [hdpall, hdpmax]
      by_cases hipe : (rsplitOnceDot s).1 = []
      · simp [hipe, hrd, hlen1, hlen2]
      · have hipmax : digitsToNat (rsplitOnceDot s).1 ≤ U64MAX := by
          have h100 : digitsToNat (rsplitOnceDot s).1 ≤ digitsToNat (rsplitOnceDot s).1 * 100 :=
            Nat.le_mul_of_pos_right _ (by norm_num)
          omega
        have hri : runIsU64 (rsplitOnceDot s).1 = true := by
          unfold runIsU64
          rw [stripPlus_of_digits _ hipd, isEmpty_false_of_ne _ hipe]
          simp [hipall, hipmax]
        simp [hri, hrd, hlen1, hlen2]
    · obtain ⟨⟨⟨hipall, hlen1⟩, hlen2⟩, hdpall⟩ := hg
      have hipd : ∀ c ∈ (rsplitOnceDot s).1, c.isDigit = true := List.all_eq_true.mp hipall
      have hdpd : ∀ c ∈ (rsplitOnceDot s).2, c.isDigit = true := List.all_eq_true.mp hdpall
      unfold runVal
      rw [stripPlus_of_digits _ hipd, stripPlus_of_digits _ hdpd]
      by_cases hipe : (rsplitOnceDot s).1 = []
      · rw [hipe]
        simp [digitsToNat]
      · rw [isEmpty_false_of_ne _ hipe]
        simp
  · simp only [hdot, if_false] at hg hv ⊢
    simp only [Bool.and_eq_true, Bool.not_eq_true', List.all_eq_true] at hg
    obtain ⟨hne, hall⟩ := hg
    have hsne : s ≠ [] := by
      intro h
      rw [h] at hne
      simp at hne
    have hmax : digitsToNat s ≤ U64MAX := by
      have h100 : digitsToNat s ≤ digitsToNat s * 100 :=
        Nat.le_mul_of_pos_right _ (by norm_num)
      omega
    have hri : runIsU64 s = true := by
      unfold runIsU64
      rw [stripPlus_of_digits _ hall, isEmpty_false_of_ne _ hsne]
      simp [List.all_eq_true.mpr hall, hmax]
    refine ⟨hri, ?_⟩
    unfold runVal
    rw [stripPlus_of_digits _ hall]

/-! Lemmas about the ledger operations. -/

theorem from_str_error_shape (s : List Char) (e : BankingError)
    (h : cents_from_str s = .error e) :
    e = .InvalidAmount s ∨ e = .AmountOverflow s := by
  rw [from_str_spec] at h
  split_ifs at h <;> simp_all

theorem findAccount_name (sys : List Account) (n : String) (a : Account)
    (h : findAccount sys n = some a) : a.name = n := by
  induction sys with
  | nil => simp [findAccount] at h
  | cons b rest ih =>
    unfold findAccount at h
    by_cases hb : b.name = n
    · rw [if_pos hb] at h
      cases h
      exact hb
    · rw [if_neg hb] at h
      exact ih h

theorem accountExists_iff (sys : List Account) (n : String) :
    accountExists sys n = true ↔ findAccount sys n ≠ none := by
  induction sys with
  | nil => simp [accountExists, findAccount]
  | cons b rest ih =>
    unfold accountExists findAccount
    unfold accountExists at ih
    by_cases hb : b.name = n
    · simp [hb]
    · simp only [List.any_cons, decide_eq_true_eq, hb, if_neg hb, decide_False,
        Bool.false_or]
      exact ih

theorem accountExists_mem_names (sys : List Account) (n : String) :
    accountExists sys n = true ↔ n ∈ sys.map Account.name := by
  induction sys with
  | nil => simp [accountExists]
  | cons b rest ih =>
    unfold accountExists
    unfold accountExists at ih
    by_cases hb : b.name = n
    · simp [hb]
    · simp only [List.any_cons, decide_eq_true_eq, hb, decide_False, Bool.false_or,
        List.map_cons, List.mem_cons]
      rw [ih]
      have : ¬ n = b.name := fun h => hb h.symm
      tauto

theorem mutFirst_not_found (f : Account → Option BankingError × Account)
    (sys : List Account) (n : String) (h : findAccount sys n = none) :
    mutFirst f sys n = (some (.AccountNotFound n), sys) := by
  induction sys with
  | nil => rfl
  | cons a rest ih =>
    unfold findAccount at h
    unfold mutFirst
    by_cases ha : a.name = n
    · rw [if_pos ha] at h
      cases h
    · rw [if_neg ha] at h
      rw [if_neg ha, ih h]

theorem mutFirst_fst (f : Account → Option BankingError × Account)
    (sys : List Account) (n : String) (a : Account)
    (h : findAccount sys n = some a) :
    (mutFirst f sys n).1 = (f a).1 := by
  induction sys with
  | nil => simp [findAccount] at h
  | cons b rest ih =>
    unfold findAccount at h
    unfold mutFirst
    by_cases hb : b.name = n
    · rw [if_pos hb] at h
      cases h
      rw [if_pos hb]
    · rw [if_neg hb] at h
      rw [if_neg hb]
      exact ih h

theorem mutFirst_fail_snd (f : Account → Option BankingError × Account)
    (sys : List Account) (n : String)
    (hid : ∀ b, (f b).1.isSome → (f b).2 = b)
    (h : (mutFirst f sys n).1.isSome) :
    (mutFirst f sys n).2 = sys := by
  induction sys with
  | nil => rfl
  | cons a rest ih =>
    unfold mutFirst at h ⊢
    by_cases ha : a.name = n
    · rw [if_pos ha] at h ⊢
      simp only at h ⊢
      rw [hid a h]
    · rw [if_neg ha] at h ⊢
      simp only at h ⊢
      rw [ih h]

theorem findAccount_mutFirst_self (f : Account → Option BankingError × Account)
    (sys : List Account) (n : String) (a : Account)
    (hname : ∀ b, ((f b).2).name = b.name)
    (h : findAccount sys n = some a) :
    findAccount (mutFirst f sys n).2 n = some ((f a).2) := by
  induction sys with
  | nil => simp [findAccount] at h
  | cons b rest ih =>
    unfold findAccount at h
    unfold mutFirst
    by_cases hb : b.name = n
    · rw [if_pos hb] at h
      have hba : b = a := by injection h
      subst hba
      rw [if_pos hb]
      simp only
      unfold findAccount
      rw [if_pos ((hname b).trans hb)]
    · rw [if_neg hb] at h
      rw [if_neg hb]
      simp only
      unfold findAccount
      rw [if_neg hb]
      exact ih h

theorem findAccount_mutFirst_other (f : Account → Option BankingError × Account)
    (sys : List Account) (n n' : String)
    (hname : ∀ b, ((f b).2).name = b.name)
    (hne : n' ≠ n) :
    findAccount (mutFirst f sys n).2 n' = findAccount sys n' := by
  induction sys with
  | nil => rfl
  | cons b rest ih =>
    unfold mutFirst
    by_cases hb : b.name = n
    · rw [if_pos hb]
      simp only
      unfold findAccount
      have h1 : ¬ ((f b).2).name = n' := by
        rw [hname b, hb]
        exact fun h => hne h.symm
      have h2 : ¬ b.name = n' := by
        rw [hb]
        exact fun h => hne h.symm
      rw [if_neg h1, if_neg h2]
    · rw [if_neg hb]
      simp only
      unfold findAccount
      by_cases hb' : b.name = n'
      · rw [if_pos hb', if_pos hb']
      · rw [if_neg hb', if_neg hb']
        exact ih

theorem mutFirst_map_name (f : Account → Option BankingError × Account)
    (sys : List Account) (n : String)
    (hname : ∀ b, ((f b).2).name = b.name) :
    ((mutFirst f sys n).2).map Account.name = sys.map Account.name := by
  induction sys with
  | nil => rfl
  | cons b rest ih =>
    unfold mutFirst
    by_cases hb : b.name = n
    · rw [if_pos hb]
      simp only [List.map_cons]
      rw [hname b]
    · rw [if_neg hb]
      simp only [List.map_cons]
      rw [ih]

/-! Account-level facts. -/

theorem deposit_fst (a : Account) (m : Nat) :
    (Account.deposit a m).1 =
      if a.balance + m ≤ U64MAX then none else some (.BalanceOverflow a.name m) := by
  unfold Account.deposit
  split_ifs <;> rfl

theorem deposit_snd_ok (a : Account) (m : Nat) (h : a.balance + m ≤ U64MAX) :
    (Account.deposit a m).2 = { name := a.name, balance := a.balance + m } := by
  unfold Account.deposit
  rw [if_pos h]

theorem deposit_name (a : Account) (m : Nat) :
    ((Account.deposit a m).2).name = a.name := by
  unfold Account.deposit
  split_ifs <;> rfl

theorem deposit_fail_id (a : Account) (m : Nat) :
    (Account.deposit a m).1.isSome → (Account.deposit a m).2 = a := by
  unfold Account.deposit
  split_ifs <;> simp

theorem withdraw_fst (a : Account) (m : Nat) :
    (Account.withdraw a m).1 =
      if m ≤ a.balance then none else some (.AccountOverdraft a.name a.balance m) := by
  unfold Account.withdraw
  split_ifs <;> rfl

theorem withdraw_snd_ok (a : Account) (m : Nat) (h : m ≤ a.balance) :
    (Account.withdraw a m).2 = { name := a.name, balance := a.balance - m } := by
  unfold Account.withdraw
  rw [if_pos h]

theorem withdraw_name (a : Account) (m : Nat) :
    ((Account.withdraw a m).2).name = a.name := by
  unfold Account.withdraw
  split_ifs <;> rfl

theorem withdraw_fail_id (a : Account) (m : Nat) :
    (Account.withdraw a m).1.isSome → (Account.withdraw a m).2 = a := by
  unfold Account.withdraw
  split_ifs <;> simp

/-! Branch characterization of `transfer`. -/

theorem transfer_no_from (sys : List Account) (fromN toN : String) (amt : List Char)
    (h : findAccount sys fromN = none) :
    transfer sys fromN toN amt = (some (.AccountNotFound fromN), sys) := by
  unfold transfer
  rw [h]

theorem transfer_no_to (sys : List Account) (fromN toN : String) (amt : List Char)
    (cf : Account) (hf : findAccount sys fromN = some cf)
    (h : findAccount sys toN = none) :
    transfer sys fromN toN amt = (some (.AccountNotFound toN), sys) := by
  unfold transfer
  rw [hf, h]

theorem transfer_parse_err (sys : List Account) (fromN toN : String) (amt : List Char)
    (cf ct : Account) (e : BankingError)
    (hf : findAccount sys fromN = some cf)
    (ht : findAccount sys toN = some ct)
    (hp : cents_from_str amt = .error e) :
    transfer sys fromN toN amt = (some e, sys) := by
  unfold transfer
  rw [hf, ht, hp]

theorem transfer_overdraft (sys : List Account) (fromN toN : String) (amt : List Char)
    (cf ct : Account) (m : Nat)
    (hf : findAccount sys fromN = some cf)
    (ht : findAccount sys toN = some ct)
    (hp : cents_from_str amt = .ok m)
    (hw : ¬ m ≤ cf.balance) :
    transfer sys fromN toN amt = (some (.AccountOverdraft cf.name cf.balance m), sys) := by
  unfold transfer
  simp only [hf, ht, hp, withdraw_fst, hw, if_false, ite_false]

theorem transfer_overflow (sys : List Account) (fromN toN : String) (amt : List Char)
    (cf ct : Account) (m : Nat)
    (hf : findAccount sys fromN = some cf)
    (ht : findAccount sys toN = some ct)
    (hp : cents_from_str amt = .ok m)
    (hw : m ≤ cf.balance)
    (hd : ¬ ct.balance + m ≤ U64MAX) :
    transfer sys fromN toN amt = (some (.BalanceOverflow ct.name m), sys) := by
  unfold transfer
  have h1 : (mutFirst (fun a => Account.deposit a m) sys toN).1 =
      some (.BalanceOverflow ct.name m) := by
    rw [mutFirst_fst _ _ _ _ ht, deposit_fst, if_neg hd]
  have h2 : (mutFirst (fun a => Account.deposit a m) sys toN).2 = sys :=
    mutFirst_fail_snd _ _ _ (fun b => deposit_fail_id b m) (by rw [h1]; rfl)
  simp only [hf, ht, hp, withdraw_fst, hw, if_true, ite_true, h1, h2]

theorem withdraw_fst_none (a : Account) (m : Nat) (h : m ≤ a.balance) :
    (Account.withdraw a m).1 = none := by
  rw [withdraw_fst, if_pos h]

theorem transfer_commit_fst (sys : List Account) (fromN toN : String)
    (cf : Account) (m : Nat)
    (hf : findAccount sys fromN = some cf)
    (hw : m ≤ cf.balance) :
    (mutFirst (fun a => Account.withdraw a m)
      ((mutFirst (fun a => Account.deposit a m) sys toN).2) fromN).1 = none := by
  have hdepname : ∀ b, ((Account.deposit b m).2).name = b.name := fun b => deposit_name b m
  by_cases hft : fromN = toN
  · subst hft
    have hself := findAccount_mutFirst_self (fun a => Account.deposit a m) sys fromN cf
      hdepname hf
    rw [mutFirst_fst _ _ _ _ hself]
    show (Account.withdraw ((Account.deposit cf m).2) m).1 = none
    have hbound : m ≤ ((Account.deposit cf m).2).balance := by
      by_cases hd : cf.balance + m ≤ U64MAX
      · rw [deposit_snd_ok _ _ hd]
        show m ≤ cf.balance + m
        omega
      · rw [deposit_fail_id cf m (by rw [deposit_fst, if_neg hd]; rfl)]
        exact hw
    exact withdraw_fst_none _ _ hbound
  · have hother := findAccount_mutFirst_other (fun a => Account.deposit a m) sys toN fromN
      hdepname hft
    rw [mutFirst_fst _ _ _ _ (hother.trans hf)]
    show (Account.withdraw cf m).1 = none
    exact withdraw_fst_none _ _ hw

theorem transfer_success (sys : List Account) (fromN toN : String) (amt : List Char)
    (cf ct : Account) (m : Nat)
    (hf : findAccount sys fromN = some cf)
    (ht : findAccount sys toN = some ct)
    (hp : cents_from_str amt = .ok m)
    (hw : m ≤ cf.balance)
    (hd : ct.balance + m ≤ U64MAX) :
    transfer sys fromN toN amt =
      (none, (mutFirst (fun a => Account.withdraw a m)
        ((mutFirst (fun a => Account.deposit a m) sys toN).2) fromN).2) := by
  unfold transfer
  have h1 : (mutFirst (fun a => Account.deposit a m) sys toN).1 = none := by
    rw [mutFirst_fst _ _ _ _ ht, deposit_fst, if_pos hd]
  have h2 := transfer_commit_fst sys fromN toN cf m hf hw
  simp only [hf, ht, hp, withdraw_fst, hw, if_true, ite_true, h1, h2]

theorem account_new_ok (n : String) (m : Nat) (a : Account)
    (h : Account.new n m = .ok a) : a = Account.mk n m ∧ n ≠ "" := by
  unfold Account.new at h
  by_cases hl : n.length < 1
  · rw [if_pos hl] at h
    cases h
  · rw [if_neg hl] at h
    cases h
    refine ⟨rfl, ?_⟩
    intro he
    rw [he] at hl
    exact hl (by decide)

/-! Claim theorems. -/

/-- C3 counterexample: `Display for Cents` prepends a `$`, so the text the
code renders for the value 0 is `"$0.00"`, which `Cents::from_str` rejects as
`InvalidAmount` instead of parsing back to 0. -/
theorem C3_counterexample :
    formatCents 0 = ['$', '0', '.', '0', '0'] ∧
      cents_from_str (formatCents 0) = .error (.InvalidAmount (formatCents 0)) ∧
      cents_from_str (formatCents 0) ≠ .ok 0 :=
  ⟨by decide, by decide, by decide⟩

/-- C3 (amended): the round-trip holds for the numeric part of the rendering
(`integer.` plus exactly two zero-padded digits, without the `$` display
prefix): for every representable minor-unit value v it parses back to exactly
v, while the full `$`-prefixed `Display` output always fails with
`InvalidAmount`. -/
theorem C3_roundtrip_numeric (v : Nat) (hv : v ≤ U64MAX) :
    cents_from_str (formatCentsNumeric v) = .ok v ∧
      cents_from_str (formatCents v) = .error (.InvalidAmount (formatCents v)) :=
  ⟨formatNumeric_parses v hv, formatCents_invalid v⟩

/-- Witness for C3 (amended) at v = 4023 minor units. -/
theorem C3_roundtrip_numeric_witness :
    formatCentsNumeric 4023 = ['4', '0', '.', '2', '3'] ∧
      cents_from_str ['4', '0', '.', '2', '3'] = .ok 4023 := by
  have h := (C3_roundtrip_numeric 4023 (by decide)).1
  refine ⟨by decide, ?_⟩
  rwa [show formatCentsNumeric 4023 = ['4', '0', '.', '2', '3'] from by decide] at h

/-- C4 counterexample: `"+1"` contains a non-digit character other than the
separator, so the claimed grammar rejects it and demands `InvalidAmount`; the
parser instead accepts it (Rust's `u64::from_str` consumes one leading `+`)
and returns 100 minor units. -/
theorem C4_counterexample :
    specGrammarOK ['+', '1'] = false ∧
      cents_from_str ['+', '1'] = .ok 100 ∧
      cents_from_str ['+', '1'] ≠ .error (.InvalidAmount ['+', '1']) :=
  ⟨by decide, by decide, by decide⟩

/-- C4 (amended): `Cents::from_str` fails with `InvalidAmount` exactly when
the input is outside the implementation grammar (the spec grammar extended
with an optional leading `+` on each digit run, and requiring the
integer-side run to fit `u64` on its own, since Rust's integer parse reports
its own overflow as a plain parse error), and fails with `AmountOverflow`
exactly when the input is in that grammar but its minor-unit value exceeds
`u64::MAX`. -/
theorem C4_error_classification (s : List Char) :
    (cents_from_str s = .error (.InvalidAmount s) ↔ implGrammarOK s = false) ∧
    (cents_from_str s = .error (.AmountOverflow s) ↔
      implGrammarOK s = true ∧ U64MAX < implValue s) := by
  rw [from_str_spec]
  by_cases h1 : implGrammarOK s
  · by_cases h2 : implValue s ≤ U64MAX
    · simp [h1, h2]
    · simp [h1, h2]
      omega
  · simp [h1]

/-- C5: for every input string in the spec's decimal grammar whose value is
representable, `Cents::from_str` returns `integer_part * 100 + decimal_part`
minor units, with an omitted integer part counting as zero and a one-digit
decimal part scaled by ten (this is `specValue`). -/
theorem C5_parse_value (s : List Char) (hg : specGrammarOK s = true)
    (hv : specValue s ≤ U64MAX) :
    cents_from_str s = .ok (specValue s) := by
  obtain ⟨h1, h2⟩ := spec_grammar_impl s hg hv
  rw [from_str_spec, h1, if_pos rfl, h2, if_pos hv]

/-- Witness for C5 on the claim's concrete examples. -/
theorem C5_parse_value_witness :
    specGrammarOK ['.', '1'] = true ∧ specValue ['.', '1'] = 10 ∧
      cents_from_str ['.', '1'] = .ok 10 ∧
      cents_from_str ['.', '0', '2'] = .ok 2 ∧
      cents_from_str ['1', '.', '0', '0'] = .ok 100 ∧
      cents_from_str ['4', '0', '.', '2'] = .ok 4020 ∧
      cents_from_str ['4', '0', '.', '2', '0'] = .ok 4020 := by
  refine ⟨by decide, by decide, ?_, ?_, ?_, ?_, ?_⟩
  · rw [C5_parse_value ['.', '1'] (by decide) (by decide)]
    decide
  · rw [C5_parse_value ['.', '0', '2'] (by decide) (by decide)]
    decide
  · rw [C5_parse_value ['1', '.', '0', '0'] (by decide) (by decide)]
    decide
  · rw [C5_parse_value ['4', '0', '.', '2'] (by decide) (by decide)]
    decide
  · rw [C5_parse_value ['4', '0', '.', '2', '0'] (by decide) (by decide)]
    decide

/-- C8: the duplicate-name check runs before amount parsing: Create on an
existing name fails with `DuplicateAccountName` for every amount text,
well-formed or not, and leaves the ledger unchanged. -/
theorem C8_duplicate_precedence (sys : List Account) (n : String) (amt : List Char)
    (h : accountExists sys n = true) :
    (create sys n amt).1 = some (.DuplicateAccountName n) ∧
      (create sys n amt).2 = sys := by
  unfold create
  rw [if_pos h]
  exact ⟨rfl, rfl⟩

/-- Witness for C8: a duplicate name with a malformed amount text still
reports `DuplicateAccountName`. -/
theorem C8_duplicate_precedence_witness :
    accountExists [Account.mk "user" 20] "user" = true ∧
      (create [Account.mk "user" 20] "user" ['x']).1 =
        some (.DuplicateAccountName "user") := by
  have h := C8_duplicate_precedence [Account.mk "user" 20] "user" ['x'] (by decide)
  exact ⟨by decide, h.1⟩

/-- C9 counterexample: with a malformed amount text, Create on a zero-length
name reports the parse error, not `EmptyAccountName`, because the empty-name
check inside `Account::new` only runs after `balance.parse()` succeeds. -/
theorem C9_counterexample :
    accountExists [] "" = false ∧
      (create [] "" ['x']).1 = some (.InvalidAmount ['x']) ∧
      (create [] "" ['x']).1 ≠ some .EmptyAccountName :=
  ⟨by decide, by decide, by decide⟩

/-- C9 (amended): Create with a zero-length name fails with
`EmptyAccountName` for every amount text that parses successfully (when the
amount text is malformed, the parse error is reported instead), and leaves
the ledger unchanged. -/
theorem C9_empty_name (sys : List Account) (amt : List Char) (m : Nat)
    (hdup : accountExists sys "" = false)
    (hp : cents_from_str amt = .ok m) :
    (create sys "" amt).1 = some .EmptyAccountName ∧ (create sys "" amt).2 = sys := by
  unfold create
  rw [if_neg (by simp [hdup]), hp]
  simp only
  unfold Account.new
  rw [if_pos (by decide)]
  exact ⟨rfl, rfl⟩

/-- Witness for C9 (amended). -/
theorem C9_empty_name_witness :
    cents_from_str ['1'] = .ok 100 ∧
      (create [] "" ['1']).1 = some .EmptyAccountName := by
  have h := C9_empty_name [] ['1'] 100 (by decide) (by decide)
  exact ⟨by decide, h.1⟩

/-- C1: strict rollback on error: whenever Create, Deposit, Withdraw, or
Transfer returns an error of any kind, the ledger after the call is exactly
the ledger before the call — no balance, name, membership, or position
changes; in particular a Transfer whose withdrawal leg would overdraft, or
whose deposit leg would overflow, changes neither account. -/
theorem C1_rollback_on_error (sys : List Account) (n n2 : String) (amt : List Char)
    (e : BankingError) :
    ((create sys n amt).1 = some e → (create sys n amt).2 = sys) ∧
    ((deposit sys n amt).1 = some e → (deposit sys n amt).2 = sys) ∧
    ((withdraw sys n amt).1 = some e → (withdraw sys n amt).2 = sys) ∧
    ((transfer sys n n2 amt).1 = some e → (transfer sys n n2 amt).2 = sys) := by
  refine ⟨?_, ?_, ?_, ?_⟩
  · intro h
    unfold create at h ⊢
    by_cases hex : accountExists sys n
    · rw [if_pos hex]
    · rw [if_neg hex] at h ⊢
      rcases hp : cents_from_str amt with e' | m
      · rfl
      · rw [hp] at h
        dsimp only at h ⊢
        rcases hn : Account.new n m with e' | a
        · rfl
        · rw [hn] at h
          simp at h
  · intro h
    unfold deposit at h ⊢
    rcases hfa : findAccount sys n with _ | a
    · rfl
    · rw [hfa] at h
      rcases hp : cents_from_str amt with e' | m
      · rfl
      · rw [hp] at h
        dsimp only at h ⊢
        exact mutFirst_fail_snd _ _ _ (fun b => deposit_fail_id b m) (by rw [h]; rfl)
  · intro h
    unfold withdraw at h ⊢
    rcases hfa : findAccount sys n with _ | a
    · rfl
    · rw [hfa] at h
      rcases hp : cents_from_str amt with e' | m
      · rfl
      · rw [hp] at h
        dsimp only at h ⊢
        exact mutFirst_fail_snd _ _ _ (fun b => withdraw_fail_id b m) (by rw [h]; rfl)
  · intro h
    rcases hf : findAccount sys n with _ | cf
    · rw [transfer_no_from sys n n2 amt hf]
    · rcases ht : findAccount sys n2 with _ | ct
      · rw [transfer_no_to sys n n2 amt cf hf ht]
      · rcases hp : cents_from_str amt with e' | m
        · rw [transfer_parse_err sys n n2 amt cf ct e' hf ht hp]
        · by_cases hw : m ≤ cf.balance
          · by_cases hd : ct.balance + m ≤ U64MAX
            · rw [transfer_success sys n n2 amt cf ct m hf ht hp hw hd] at h
              simp at h
            · rw [transfer_overflow sys n n2 amt cf ct m hf ht hp hw hd]
          · rw [transfer_overdraft sys n n2 amt cf ct m hf ht hp hw]

/-- Witness for C1: a parse failure in Create leaves the empty ledger
unchanged. -/
theorem C1_rollback_on_error_witness :
    (create [] "a" ['x']).1 = some (.InvalidAmount ['x']) ∧
      (create [] "a" ['x']).2 = [] := by
  refine ⟨by decide, ?_⟩
  exact (C1_rollback_on_error [] "a" "b" ['x'] (.InvalidAmount ['x'])).1 (by decide)

/-- C2: a transfer between two distinct existing accounts whose parsed amount
m satisfies m ≤ from-balance and to-balance + m ≤ u64::MAX succeeds; the
from-balance decreases by exactly m, the to-balance increases by exactly m,
and the sum of the two balances is unchanged. -/
theorem C2_transfer_conservation (sys : List Account) (fromN toN : String)
    (amt : List Char) (cf ct : Account) (m : Nat)
    (hne : fromN ≠ toN)
    (hf : findAccount sys fromN = some cf)
    (ht : findAccount sys toN = some ct)
    (hp : cents_from_str amt = .ok m)
    (hw : m ≤ cf.balance)
    (hd : ct.balance + m ≤ U64MAX) :
    (transfer sys fromN toN amt).1 = none ∧
    findAccount (transfer sys fromN toN amt).2 fromN =
      some (Account.mk cf.name (cf.balance - m)) ∧
    findAccount (transfer sys fromN toN amt).2 toN =
      some (Account.mk ct.name (ct.balance + m)) ∧
    (cf.balance - m) + (ct.balance + m) = cf.balance + ct.balance := by
  rw [transfer_success sys fromN toN amt cf ct m hf ht hp hw hd]
  have hdepname : ∀ b, ((Account.deposit b m).2).name = b.name := fun b => deposit_name b m
  have hwdname : ∀ b, ((Account.withdraw b m).2).name = b.name := fun b => withdraw_name b m
  have hf1 : findAccount ((mutFirst (fun a => Account.deposit a m) sys toN).2) fromN =
      findAccount sys fromN :=
    findAccount_mutFirst_other _ sys toN fromN hdepname hne
  refine ⟨rfl, ?_, ?_, by omega⟩
  · have hs := findAccount_mutFirst_self (fun a => Account.withdraw a m)
      ((mutFirst (fun a => Account.deposit a m) sys toN).2) fromN cf hwdname
      (hf1.trans hf)
    rw [hs]
    show some ((Account.withdraw cf m).2) = _
    rw [withdraw_snd_ok cf m hw]
  · have h2 : findAccount ((mutFirst (fun a => Account.withdraw a m)
        ((mutFirst (fun a => Account.deposit a m) sys toN).2) fromN).2) toN =
        findAccount ((mutFirst (fun a => Account.deposit a m) sys toN).2) toN :=
      findAccount_mutFirst_other _ _ fromN toN hwdname (fun hh => hne hh.symm)
    rw [h2]
    have hs := findAccount_mutFirst_self (fun a => Account.deposit a m) sys toN ct
      hdepname ht
    rw [hs]
    show some ((Account.deposit ct m).2) = _
    rw [deposit_snd_ok ct m hd]

/-- Witness for C2, mirroring the repository's own transfer test: moving
"10" (1000 minor units) from user1 (2000) to user2 (1000). -/
theorem C2_transfer_conservation_witness :
    (transfer [Account.mk "user1" 2000, Account.mk "user2" 1000] "user1" "user2"
      ['1', '0']).1 = none ∧
    findAccount (transfer [Account.mk "user1" 2000, Account.mk "user2" 1000]
      "user1" "user2" ['1', '0']).2 "user1" = some (Account.mk "user1" 1000) ∧
    findAccount (transfer [Account.mk "user1" 2000, Account.mk "user2" 1000]
      "user1" "user2" ['1', '0']).2 "user2" = some (Account.mk "user2" 2000) := by
  have h := C2_transfer_conservation [Account.mk "user1" 2000, Account.mk "user2" 1000]
    "user1" "user2" ['1', '0'] (Account.mk "user1" 2000) (Account.mk "user2" 1000) 1000
    (by decide) (by decide) (by decide) (by decide) (by decide) (by decide)
  exact ⟨h.1, h.2.1, h.2.2.1⟩

/-- C6: the commit step of Transfer never fails: for every ledger and call,
the concluding lookup and withdrawal cannot reach either `expect` panic —
including when the from-account and the to-account are the same. -/
theorem C6_commit_no_panic (sys : List Account) (fromN toN : String) (amt : List Char) :
    (transfer sys fromN toN amt).1 ≠ some .PanicFromNotFound ∧
    (transfer sys fromN toN amt).1 ≠ some .PanicWithdrawFailed := by
  rcases hf : findAccount sys fromN with _ | cf
  · rw [transfer_no_from sys fromN toN amt hf]
    exact ⟨by simp, by simp⟩
  · rcases ht : findAccount sys toN with _ | ct
    · rw [transfer_no_to sys fromN toN amt cf hf ht]
      exact ⟨by simp, by simp⟩
    · rcases hp : cents_from_str amt with e | m
      · rw [transfer_parse_err sys fromN toN amt cf ct e hf ht hp]
        rcases from_str_error_shape amt e hp with he | he <;> subst he <;>
          exact ⟨by simp, by simp⟩
      · by_cases hw : m ≤ cf.balance
        · by_cases hd : ct.balance + m ≤ U64MAX
          · rw [transfer_success sys fromN toN amt cf ct m hf ht hp hw hd]
            exact ⟨by simp, by simp⟩
          · rw [transfer_overflow sys fromN toN amt cf ct m hf ht hp hw hd]
            exact ⟨by simp, by simp⟩
        · rw [transfer_overdraft sys fromN toN amt cf ct m hf ht hp hw]
          exact ⟨by simp, by simp⟩

/-- C10: a self-transfer on an existing account succeeds exactly when
m ≤ balance and balance + m ≤ u64::MAX (so it can fail with
`BalanceOverflow` even though the net change would be zero), and on success
the account is unchanged. -/
theorem C10_self_transfer (sys : List Account) (a : String) (amt : List Char)
    (acct : Account) (m : Nat)
    (hf : findAccount sys a = some acct)
    (hp : cents_from_str amt = .ok m) :
    ((transfer sys a a amt).1 = none ↔
      (m ≤ acct.balance ∧ acct.balance + m ≤ U64MAX)) ∧
    ((transfer sys a a amt).1 = none →
      findAccount (transfer sys a a amt).2 a = some acct) := by
  have hdepname : ∀ b, ((Account.deposit b m).2).name = b.name := fun b => deposit_name b m
  have hwdname : ∀ b, ((Account.withdraw b m).2).name = b.name := fun b => withdraw_name b m
  by_cases hw : m ≤ acct.balance
  · by_cases hd : acct.balance + m ≤ U64MAX
    · rw [transfer_success sys a a amt acct acct m hf hf hp hw hd]
      refine ⟨by simp [hw, hd], fun _ => ?_⟩
      have hs1 := findAccount_mutFirst_self (fun x => Account.deposit x m) sys a acct
        hdepname hf
      have hs2 := findAccount_mutFirst_self (fun x => Account.withdraw x m)
        ((mutFirst (fun x => Account.deposit x m) sys a).2) a
        ((Account.deposit acct m).2) hwdname hs1
      rw [hs2]
      show some ((Account.withdraw ((Account.deposit acct m).2) m).2) = some acct
      rw [deposit_snd_ok _ _ hd]
      have hb : m ≤ (Account.mk acct.name (acct.balance + m)).balance := by
        show m ≤ acct.balance + m
        omega
      rw [withdraw_snd_ok _ _ hb]
      show some (Account.mk acct.name (acct.balance + m - m)) = some acct
      have hcancel : acct.balance + m - m = acct.balance := by omega
      rw [hcancel]
    · rw [transfer_overflow sys a a amt acct acct m hf hf hp hw hd]
      exact ⟨by simp [hd], by simp⟩
  · rw [transfer_overdraft sys a a amt acct acct m hf hf hp hw]
    exact ⟨by simp [hw], by simp⟩

/-- Witness for C10: self-transfer of "1" (100 minor units) on an account
with 200 minor units succeeds and leaves the balance at 200. -/
theorem C10_self_transfer_witness :
    (transfer [Account.mk "a" 200] "a" "a" ['1']).1 = none ∧
      findAccount (transfer [Account.mk "a" 200] "a" "a" ['1']).2 "a" =
        some (Account.mk "a" 200) := by
  have h := C10_self_transfer [Account.mk "a" 200] "a" ['1'] (Account.mk "a" 200) 100
    (by decide) (by decide)
  have h1 : (transfer [Account.mk "a" 200] "a" "a" ['1']).1 = none :=
    h.1.mpr ⟨by decide, by decide⟩
  exact ⟨h1, h.2 h1⟩

theorem goodLedger_of_names (sys sys' : List Account)
    (h : sys'.map Account.name = sys.map Account.name)
    (hnd : (sys.map Account.name).Nodup) (hne : ∀ a ∈ sys, a.name ≠ "") :
    goodLedger sys' := by
  constructor
  · rw [h]
    exact hnd
  · intro a ha
    have hm : a.name ∈ sys'.map Account.name := List.mem_map_of_mem _ ha
    rw [h] at hm
    obtain ⟨b, hb, hbe⟩ := List.mem_map.mp hm
    rw [← hbe]
    exact hne b hb

theorem goodLedger_append (sys : List Account) (a : Account)
    (hnd : (sys.map Account.name).Nodup) (hne : ∀ b ∈ sys, b.name ≠ "")
    (hnot : a.name ∉ sys.map Account.name) (hn : a.name ≠ "") :
    goodLedger (sys ++ [a]) := by
  constructor
  · rw [List.map_append]
    rw [List.nodup_append]
    refine ⟨hnd, by simp, ?_⟩
    intro x hx
    simp only [List.map_cons, List.map_nil, List.mem_singleton]
    intro he
    rw [he] at hx
    exact hnot hx
  · intro b hb
    rcases List.mem_append.mp hb with hm | hm
    · exact hne b hm
    · rw [List.mem_singleton.mp hm]
      exact hn

theorem deposit_map_name (sys : List Account) (n : String) (amt : List Char) :
    (deposit sys n amt).2.map Account.name = sys.map Account.name := by
  unfold deposit
  rcases hfa : findAccount sys n with _ | a
  · rfl
  · rcases hp : cents_from_str amt with e' | m
    · rfl
    · dsimp only
      exact mutFirst_map_name _ sys n (fun b => deposit_name b m)

theorem withdraw_map_name (sys : List Account) (n : String) (amt : List Char) :
    (withdraw sys n amt).2.map Account.name = sys.map Account.name := by
  unfold withdraw
  rcases hfa : findAccount sys n with _ | a
  · rfl
  · rcases hp : cents_from_str amt with e' | m
    · rfl
    · dsimp only
      exact mutFirst_map_name _ sys n (fun b => withdraw_name b m)

theorem transfer_map_name (sys : List Account) (n n2 : String) (amt : List Char) :
    (transfer sys n n2 amt).2.map Account.name = sys.map Account.name := by
  rcases hf : findAccount sys n with _ | cf
  · rw [transfer_no_from sys n n2 amt hf]
  · rcases ht : findAccount sys n2 with _ | ct
    · rw [transfer_no_to sys n n2 amt cf hf ht]
    · rcases hp : cents_from_str amt with e' | m
      · rw [transfer_parse_err sys n n2 amt cf ct e' hf ht hp]
      · by_cases hw : m ≤ cf.balance
        · by_cases hd : ct.balance + m ≤ U64MAX
          · rw [transfer_success sys n n2 amt cf ct m hf ht hp hw hd]
            dsimp only
            rw [mutFirst_map_name _ _ n (fun b => withdraw_name b m),
              mutFirst_map_name _ _ n2 (fun b => deposit_name b m)]
          · rw [transfer_overflow sys n n2 amt cf ct m hf ht hp hw hd]
        · rw [transfer_overdraft sys n n2 amt cf ct m hf ht hp hw]

theorem create_cases (sys : List Account) (n : String) (amt : List Char) :
    ((create sys n amt).2 = sys ∧ (create sys n amt).1 ≠ none) ∨
      (∃ m, cents_from_str amt = .ok m ∧ accountExists sys n = false ∧ n ≠ "" ∧
        (create sys n amt).1 = none ∧ (create sys n amt).2 = sys ++ [Account.mk n m]) := by
  unfold create
  by_cases hex : accountExists sys n
  · rw [if_pos hex]
    exact Or.inl ⟨rfl, by simp⟩
  · rw [if_neg hex]
    rcases hp : cents_from_str amt with e' | m
    · exact Or.inl ⟨rfl, by simp⟩
    · dsimp only
      rcases hn : Account.new n m with e' | a
      · exact Or.inl ⟨rfl, by simp⟩
      · obtain ⟨ha, hns⟩ := account_new_ok n m a hn
        subst ha
        refine Or.inr ⟨m, rfl, ?_, hns, rfl, rfl⟩
        rw [Bool.eq_false_iff]
        exact hex

/-- C7: every operation preserves the structural invariant: starting from a
ledger with non-empty, pairwise-distinct account names, after any of Create,
Deposit, Withdraw, or Transfer (success or failure) the names are still
non-empty and distinct; for Deposit, Withdraw, and Transfer the name sequence
is exactly unchanged (so every prior account is present, same name, same
position), and Create either leaves the ledger unchanged or — exactly on
success — appends the new account at the end. -/
theorem C7_invariant (sys : List Account) (n n2 : String) (amt : List Char)
    (hnd : (sys.map Account.name).Nodup)
    (hne : ∀ a ∈ sys, a.name ≠ "") :
    goodLedger ((create sys n amt).2) ∧
    goodLedger ((deposit sys n amt).2) ∧
    goodLedger ((withdraw sys n amt).2) ∧
    goodLedger ((transfer sys n n2 amt).2) ∧
    (deposit sys n amt).2.map Account.name = sys.map Account.name ∧
    (withdraw sys n amt).2.map Account.name = sys.map Account.name ∧
    (transfer sys n n2 amt).2.map Account.name = sys.map Account.name ∧
    ((create sys n amt).2 = sys ∨ ∃ a, a.name = n ∧ (create sys n amt).2 = sys ++ [a]) ∧
    ((create sys n amt).1 = none →
      ∃ a, a.name = n ∧ (create sys n amt).2 = sys ++ [a]) := by
  have hdep := deposit_map_name sys n amt
  have hwd := withdraw_map_name sys n amt
  have htr := transfer_map_name sys n n2 amt
  have hcr := create_cases sys n amt
  refine ⟨?_, goodLedger_of_names sys _ hdep hnd hne,
    goodLedger_of_names sys _ hwd hnd hne,
    goodLedger_of_names sys _ htr hnd hne, hdep, hwd, htr, ?_, ?_⟩
  · rcases hcr with ⟨he, _⟩ | ⟨m, _, hnotex, hns, _, he⟩
    · rw [he]
      exact ⟨hnd, hne⟩
    · rw [he]
      refine goodLedger_append sys (Account.mk n m) hnd hne ?_ hns
      intro hmem
      rw [← accountExists_mem_names] at hmem
      rw [hnotex] at hmem
      cases hmem
  · rcases hcr with ⟨he, _⟩ | ⟨m, _, _, _, _, he⟩
    · exact Or.inl he
    · exact Or.inr ⟨Account.mk n m, rfl, he⟩
  · intro hok
    rcases hcr with ⟨_, hne'⟩ | ⟨m, _, _, _, _, he⟩
    · exact absurd hok hne'
    · exact ⟨Account.mk n m, rfl, he⟩

/-- Witness for C7 on a concrete one-account ledger. -/
theorem C7_invariant_witness :
    ([Account.mk "a" 1].map Account.name).Nodup ∧
      (transfer [Account.mk "a" 1] "b" "a" ['1']).2.map Account.name = ["a"] := by
  have h := C7_invariant [Account.mk "a" 1] "b" "a" ['1'] (by decide) (by decide)
  have ht := h.2.2.2.2.2.2.1
  refine ⟨by decide, ?_⟩
  rw [ht]
  decide

end Banking
